import Mathlib

set_option autoImplicit false
set_option linter.unusedVariables false

/-!
Shallow embedding of the pixie16 spill unpacker declared in
src/Scan/include/Unpacker.hpp (class Unpacker).  The header gives the data
members, the method declarations with their documentation, and the inline
bodies of GetMaxModule, GetEventWidth, SetDebugMode and SetEventWidth; the
remaining method bodies (ReadBuffer, AddEvent, TimeSort, BuildRawEvent,
ReadSpill, Close) are not part of the sources, so they are modelled from the
specification, as marked on each definition.
-/

/-- Compile-time maximum module index, from the MAX_PIXIE_MOD macro. -/
def MAX_PIXIE_MOD : Nat := 12

/-- Compile-time maximum channel index, from the MAX_PIXIE_CHAN macro. -/
def MAX_PIXIE_CHAN : Nat := 15

/-- One decoded channel hit: module index, channel index, timestamp in clock
ticks, energy, optional trace payload, and a validity flag cleared when the
decoder detected corruption (class XiaEvent, forward-declared in the header;
logical fields per the specification's data model). -/
structure XiaEvent where
  modNum : Nat
  chanNum : Nat
  time : Nat
  energy : Nat
  trace : List Nat
  valid : Bool
deriving DecidableEq

/-- The per-channel hit queues: outer index is the module slot (grown on
demand, mirroring std::vector), middle index the channel, inner list the
time-ordered queue of pending hits for that (module, channel). -/
abbrev EventGrid := List (List (List XiaEvent))

/-- State of one Unpacker instance: the data members of class Unpacker.
channel_counts is the per-(module, channel) statistics grid, eventWidth the
raw-event window in clock ticks, eventList the hit queues, rawEvent the
currently open raw event. -/
structure Unpacker where
  TOTALREAD : Nat
  maxWords : Nat
  channel_counts : Nat → Nat → Nat
  eventWidth : Nat
  debug_mode : Bool
  eventList : EventGrid
  rawEvent : List XiaEvent

/-- Apply a function to the element at index i, identity when out of range. -/
def updAt {α : Type} (l : List α) (i : Nat) (f : α → α) : List α :=
  match l, i with
  | [], _ => []
  | x :: xs, 0 => f x :: xs
  | x :: xs, Nat.succ j => x :: updAt xs j f

/-- Pad a list on the right with copies of pad until it has at least n
elements. -/
def padTo {α : Type} (n : Nat) (pad : α) (l : List α) : List α :=
  l ++ List.replicate (n - l.length) pad

/-- Append hit e to the queue for (m, c), growing the module and channel
tables on demand. -/
def appendHit (el : EventGrid) (m c : Nat) (e : XiaEvent) : EventGrid :=
  updAt (padTo (m + 1) [] el) m
    (fun slot => updAt (padTo (c + 1) [] slot) c (fun q => q ++ [e]))

/-- The queue currently stored for (m, c); empty when the slot was never
created. -/
def queueAt (el : EventGrid) (m c : Nat) : List XiaEvent :=
  (el.getD m []).getD c []

/-- Total number of hits held across all queues of the grid. -/
def totalQueued (el : EventGrid) : Nat :=
  (el.map (fun slot => (slot.map List.length).sum)).sum

/-- Structural validity of a decoded hit: module and channel indices within
the declared [0, MAX_PIXIE_MOD] x [0, MAX_PIXIE_CHAN] bounds. -/
def structValid (e : XiaEvent) : Prop :=
  e.modNum ≤ MAX_PIXIE_MOD ∧ e.chanNum ≤ MAX_PIXIE_CHAN

instance structValid.inst (e : XiaEvent) : Decidable (structValid e) :=
  inferInstanceAs (Decidable (_ ∧ _))

/-- Increment the statistics counter of slot (m, c), leaving all other slots
unchanged. -/
def bump (f : Nat → Nat → Nat) (m c : Nat) : Nat → Nat → Nat :=
  fun i j => if i = m ∧ j = c then f i j + 1 else f i j

/-- Modelled from the spec: the body of Unpacker::AddEvent is not in the
sources.  Per the specification, AddEvent appends the hit to the queue for
its (module, channel) when both indices are in bounds, and otherwise returns
false and drops the hit without touching any queue or counter. -/
def Unpacker.AddEvent (u : Unpacker) (e : XiaEvent) : Bool × Unpacker :=
  if structValid e then
    (true, { u with eventList := appendHit u.eventList e.modNum e.chanNum e })
  else
    (false, u)

/-- Modelled from the spec: the decoder increments Channel Statistics for
every structurally valid hit it produces, then hands the hit to AddEvent;
this is the per-hit step of the decode-and-enqueue pass of ReadSpill. -/
def Unpacker.ingestHit (u : Unpacker) (e : XiaEvent) : Unpacker :=
  ((if structValid e then
      { u with channel_counts := bump u.channel_counts e.modNum e.chanNum }
    else u).AddEvent e).2

/-- Modelled from the spec: the body of Unpacker::ReadBuffer is not in the
sources.  A logical record is a five-word header [modNum, chanNum, time,
energy, traceLen] followed by traceLen trace words.  A buffer shorter than a
header yields no further hits; a declared trace length that overruns the
remaining buffer marks that hit invalid and the decoder skips the header (the
minimal recoverable unit) and continues, rather than aborting the buffer. -/
def decodeGo : Nat → List Nat → List XiaEvent
  | Nat.succ fuel, m :: c :: t :: en :: tl :: rest =>
    if tl ≤ rest.length then
      ⟨m, c, t, en, rest.take tl, true⟩ :: decodeGo fuel (rest.drop tl)
    else
      ⟨m, c, t, en, [], false⟩ :: decodeGo fuel rest
  | _, _ => []

/-- Decode a whole buffer; the fuel bound equals the buffer length, which
each record strictly decreases, so it never runs out. -/
def decodeRecords (buf : List Nat) : List XiaEvent :=
  decodeGo buf.length buf

/-- Boolean timestamp comparison used by the time sort; ties are resolved by
the merge taking the left (earlier-queue) element first. -/
def timeLE (a b : XiaEvent) : Bool := decide (a.time ≤ b.time)

/-- Worker of the two-way merge, structurally recursive on a fuel bound that
covers the combined length of the two lists. -/
def mergeGo {α : Type} (le : α → α → Bool) : Nat → List α → List α → List α
  | _, [], ys => ys
  | _, x :: xs, [] => x :: xs
  | 0, x :: xs, y :: ys => x :: xs ++ y :: ys
  | Nat.succ fuel, x :: xs, y :: ys =>
    if le x y then x :: mergeGo le fuel xs (y :: ys)
    else y :: mergeGo le fuel (x :: xs) ys

/-- Stable two-way merge: on equal keys the left (earlier-queue) element is
taken first. -/
def mergeLE {α : Type} (le : α → α → Bool) (xs ys : List α) : List α :=
  mergeGo le (xs.length + ys.length) xs ys

/-- Merge a list of per-channel queues, taken in queue-iteration order, into
one timestamp-ordered sequence by repeated two-way merges that prefer the
earlier queue on equal timestamps. -/
def timeSortMerge (qs : List (List XiaEvent)) : List XiaEvent :=
  qs.foldr (fun q acc => mergeLE timeLE q acc) []

/-- Modelled from the spec: the body of Unpacker::TimeSort is not in the
sources.  It merges all per-channel queues, iterated module index ascending
then channel index ascending, into one globally timestamp-ascending
sequence. -/
def Unpacker.TimeSort (u : Unpacker) : List XiaEvent :=
  timeSortMerge u.eventList.flatten

/-- Worker of the raw event builder: cur is the open raw event (non-empty),
anchor the timestamp of its first hit; each next sorted hit is admitted when
its timestamp minus the anchor is at most the event width, and otherwise the
open event is finalized and a new one is opened anchored at that hit. -/
def buildGo (w anchor : Nat) (cur : List XiaEvent) :
    List XiaEvent → List (List XiaEvent)
  | [] => [cur]
  | h :: rest =>
    if h.time - anchor ≤ w then buildGo w anchor (cur ++ [h]) rest
    else cur :: buildGo w h.time [h] rest

/-- Modelled from the spec: the body of Unpacker::BuildRawEvent is not in the
sources.  The builder consumes the sorted sequence, groups hits into raw
events by the sliding window rule, and finalizes the open event at
exhaustion; an empty sorted sequence produces no raw event. -/
def buildEvents (w : Nat) : List XiaEvent → List (List XiaEvent)
  | [] => []
  | h :: rest => buildGo w h.time [h] rest

/-- Anchor of a raw event: the timestamp of its first (earliest) hit. -/
def anchorOf (ev : List XiaEvent) : Nat :=
  match ev with
  | [] => 0
  | h :: _ => h.time

/-- Empty every queue of the grid while keeping the created slots, as the
builder drains the queues hit by hit. -/
def clearQueues (el : EventGrid) : EventGrid :=
  el.map (fun slot => slot.map (fun _ => []))

/-- Result of one ReadSpill call: the returned status, the finalized raw
events handed to ProcessRawEvent in order, and the state afterwards. -/
structure SpillResult where
  ok : Bool
  events : List (List XiaEvent)
  state : Unpacker

/-- Modelled from the spec: the body of Unpacker::ReadSpill is not in the
sources.  ReadSpill rejects a spill whose word count exceeds the configured
maximum without touching any state, and otherwise decodes the buffer,
enqueues the hits, time-sorts the queues and drains all raw events; the
verbosity flag only governs diagnostic output. -/
def Unpacker.ReadSpill (u : Unpacker) (data : List Nat) (is_verbose : Bool) :
    SpillResult :=
  if u.TOTALREAD < data.length then
    ⟨false, [], u⟩
  else
    let u1 := (decodeRecords data).foldl Unpacker.ingestHit u
    let evs := buildEvents u1.eventWidth u1.TimeSort
    ⟨true, evs, { u1 with eventList := clearQueues u1.eventList, rawEvent := [] }⟩

/-- Modelled from the spec: the body of Unpacker::Close is not in the
sources.  Close empties the raw event and the event list and clears the
accumulated channel counts, optionally writing them to file first (file
output is outside the model). -/
def Unpacker.Close (u : Unpacker) (write_count_file : Bool) : Unpacker :=
  { u with eventList := [], rawEvent := [], channel_counts := fun _ _ => 0 }

/-- Inline body from the header: GetMaxModule returns eventList.size(). -/
def Unpacker.GetMaxModule (u : Unpacker) : Nat := u.eventList.length

/-- Inline body from the header: GetEventWidth returns eventWidth. -/
def Unpacker.GetEventWidth (u : Unpacker) : Nat := u.eventWidth

/-- Inline body from the header: SetDebugMode assigns and returns the flag. -/
def Unpacker.SetDebugMode (u : Unpacker) (state_ : Bool) : Bool × Unpacker :=
  (state_, { u with debug_mode := state_ })

/-- Inline body from the header: SetEventWidth assigns and returns the
width. -/
def Unpacker.SetEventWidth (u : Unpacker) (width_ : Nat) : Nat × Unpacker :=
  (width_, { u with eventWidth := width_ })

/-- Modelled from the spec: the constructor body is not in the sources.  A
fresh Unpacker has no module slots created, zeroed statistics and an empty
raw event; the numeric configuration defaults are representative values. -/
def initUnpacker : Unpacker :=
  { TOTALREAD := 1000000
    maxWords := 131072
    channel_counts := fun _ _ => 0
    eventWidth := 100
    debug_mode := false
    eventList := []
    rawEvent := [] }

/-- One call of the public Unpacker interface, for reasoning about operation
sequences. -/
inductive UnpOp where
  | readSpill (data : List Nat) (verbose : Bool)
  | setEventWidth (w : Nat)
  | setDebugMode (b : Bool)
  | close (flag : Bool)

/-- Whether the operation is a Close call. -/
def UnpOp.isClose : UnpOp → Bool
  | .close _ => true
  | _ => false

/-- Apply one interface call to the state. -/
def applyOp (u : Unpacker) : UnpOp → Unpacker
  | .readSpill d v => (u.ReadSpill d v).state
  | .setEventWidth w => (u.SetEventWidth w).2
  | .setDebugMode b => (u.SetDebugMode b).2
  | .close f => u.Close f

/-- Tag every hit of every queue with its queue index, counting from i, to
name which queue each merged hit came from. -/
def tagFrom (i : Nat) : List (List XiaEvent) → List (List (XiaEvent × Nat))
  | [] => []
  | q :: qs => q.map (fun h => (h, i)) :: tagFrom (i + 1) qs

/-- Timestamp comparison on tagged hits, ignoring the tag, exactly as the
time sort compares. -/
def tagLE (a b : XiaEvent × Nat) : Bool := decide (a.1.time ≤ b.1.time)

/-- The time-sort merge run on tagged queues. -/
def timeSortMergeTagged (tqs : List (List (XiaEvent × Nat))) :
    List (XiaEvent × Nat) :=
  tqs.foldr (fun q acc => mergeLE tagLE q acc) []

/-- Lexicographic order on tagged hits: earlier timestamp first, and on equal
timestamps the hit from the earlier queue in iteration order first. -/
def lexRel (a b : XiaEvent × Nat) : Prop :=
  a.1.time < b.1.time ∨ (a.1.time = b.1.time ∧ a.2 ≤ b.2)

/-- Number of structurally valid hits of a batch that belong to slot
(m, c). -/
def countHits (hits : List XiaEvent) (m c : Nat) : Nat :=
  (hits.filter (fun h => decide (structValid h ∧ h.modNum = m ∧ h.chanNum = c))).length

/-! ## Helper lemmas -/

theorem mergeGo_eq_merge {α : Type} (le : α → α → Bool) :
    ∀ (fuel : Nat) (xs ys : List α), xs.length + ys.length ≤ fuel →
      mergeGo le fuel xs ys = List.merge xs ys le := by
  intro fuel
  induction fuel with
  | zero =>
    intro xs ys h
    match xs, ys with
    | [], ys => simp [mergeGo]
    | x :: xs, [] => simp [mergeGo]
    | x :: xs, y :: ys => simp at h
  | succ n ih =>
    intro xs ys h
    match xs, ys with
    | [], ys => simp [mergeGo]
    | x :: xs, [] => simp [mergeGo]
    | x :: xs, y :: ys =>
      rw [List.cons_merge_cons]
      simp only [mergeGo]
      simp only [List.length_cons] at h
      by_cases hle : le x y
      · rw [if_pos hle, if_pos hle, ih xs (y :: ys) (by simp; omega)]
      · rw [if_neg hle, if_neg hle, ih (x :: xs) ys (by simp; omega)]

theorem mergeLE_eq_merge {α : Type} (le : α → α → Bool) (xs ys : List α) :
    mergeLE le xs ys = List.merge xs ys le :=
  mergeGo_eq_merge le _ xs ys (Nat.le_refl _)

theorem decodeGo_succ :
    ∀ (fuel : Nat) (buf : List Nat), buf.length ≤ fuel →
      decodeGo (fuel + 1) buf = decodeGo fuel buf := by
  intro fuel
  induction fuel with
  | zero =>
    intro buf h
    match buf with
    | [] => rfl
    | _ :: _ => simp at h
  | succ n ih =>
    intro buf h
    match buf with
    | [] => rfl
    | [a] => rfl
    | [a, b] => rfl
    | [a, b, c] => rfl
    | [a, b, c, d] => rfl
    | m :: c :: t :: en :: tl :: rest =>
      simp only [List.length_cons] at h
      simp only [decodeGo]
      by_cases hle : tl ≤ rest.length
      · rw [if_pos hle, if_pos hle, ih (rest.drop tl) (by simp; omega)]
      · rw [if_neg hle, if_neg hle, ih rest (by omega)]

theorem decodeGo_eq_decodeRecords (fuel : Nat) (buf : List Nat)
    (h : buf.length ≤ fuel) : decodeGo fuel buf = decodeRecords buf := by
  induction fuel with
  | zero =>
    match buf with
    | [] => rfl
    | _ :: _ => simp at h
  | succ n ih =>
    by_cases h' : buf.length ≤ n
    · rw [decodeGo_succ n buf h', ih h']
    · have : buf.length = n + 1 := by omega
      rw [decodeRecords, this]

theorem decodeRecords_cons (m c t en tl : Nat) (rest : List Nat) :
    decodeRecords (m :: c :: t :: en :: tl :: rest)
      = if tl ≤ rest.length then
          ⟨m, c, t, en, rest.take tl, true⟩ :: decodeRecords (rest.drop tl)
        else
          ⟨m, c, t, en, [], false⟩ :: decodeRecords rest := by
  have hlen : (m :: c :: t :: en :: tl :: rest).length = rest.length + 5 := by
    simp
  rw [decodeRecords, hlen]
  show decodeGo (rest.length + 4 + 1) _ = _
  simp only [decodeGo]
  by_cases hle : tl ≤ rest.length
  · rw [if_pos hle, if_pos hle,
      decodeGo_eq_decodeRecords _ _ (by simp; omega)]
  · rw [if_neg hle, if_neg hle,
      decodeGo_eq_decodeRecords _ _ (by omega)]

theorem updAt_getD {α : Type} (d : α) :
    ∀ (l : List α) (i : Nat) (f : α → α), i < l.length →
      (updAt l i f).getD i d = f (l.getD i d) := by
  intro l
  induction l with
  | nil => intro i f h; simp at h
  | cons x xs ih =>
    intro i f h
    cases i with
    | zero => rfl
    | succ j =>
      simp only [updAt, List.getD_cons_succ]
      exact ih j f (by simpa using h)

theorem getD_append_replicate {α : Type} (d : α) :
    ∀ (l : List α) (k i : Nat),
      (l ++ List.replicate k d).getD i d = l.getD i d := by
  intro l
  induction l with
  | nil =>
    intro k i
    simp only [List.nil_append, List.getD_nil]
    simp [List.getD]
  | cons x xs ih =>
    intro k i
    cases i with
    | zero => rfl
    | succ j => simp only [List.cons_append, List.getD_cons_succ]; exact ih k j

theorem padTo_getD {α : Type} (d : α) (n : Nat) (l : List α) (i : Nat) :
    (padTo n d l).getD i d = l.getD i d := by
  rw [padTo, getD_append_replicate]

theorem padTo_length {α : Type} (n : Nat) (pad : α) (l : List α) :
    (padTo n pad l).length = max l.length n := by
  simp [padTo]
  omega

theorem sum_map_updAt {α : Type} (f : α → Nat) (g : α → α) (k : Nat)
    (hg : ∀ x, f (g x) = f x + k) :
    ∀ (l : List α) (i : Nat), i < l.length →
      ((updAt l i g).map f).sum = (l.map f).sum + k := by
  intro l
  induction l with
  | nil => intro i h; simp at h
  | cons x xs ih =>
    intro i h
    cases i with
    | zero =>
      simp only [updAt, List.map_cons, List.sum_cons, hg]
      omega
    | succ j =>
      simp only [updAt, List.map_cons, List.sum_cons, ih j (by simpa using h)]
      omega

theorem sum_map_padTo {α : Type} (f : α → Nat) (pad : α) (hp : f pad = 0)
    (n : Nat) (l : List α) : ((padTo n pad l).map f).sum = (l.map f).sum := by
  simp [padTo, List.map_replicate, hp, List.sum_replicate]

theorem queueAt_appendHit (el : EventGrid) (m c : Nat) (e : XiaEvent) :
    queueAt (appendHit el m c e) m c = queueAt el m c ++ [e] := by
  rw [queueAt, appendHit,
    updAt_getD _ _ _ _ (by rw [padTo_length]; omega), padTo_getD,
    updAt_getD _ _ _ _ (by rw [padTo_length]; omega), padTo_getD, queueAt]

theorem slot_sum_append (slot : List (List XiaEvent)) (c : Nat) (e : XiaEvent) :
    ((updAt (padTo (c + 1) [] slot) c (fun q => q ++ [e])).map List.length).sum
      = (slot.map List.length).sum + 1 := by
  rw [sum_map_updAt List.length (fun q => q ++ [e]) 1 (by intro q; simp)
      (padTo (c + 1) [] slot) c (by rw [padTo_length]; omega),
    sum_map_padTo List.length [] rfl]

theorem totalQueued_appendHit (el : EventGrid) (m c : Nat) (e : XiaEvent) :
    totalQueued (appendHit el m c e) = totalQueued el + 1 := by
  rw [totalQueued, appendHit,
    sum_map_updAt (fun slot => (slot.map List.length).sum)
      (fun slot => updAt (padTo (c + 1) [] slot) c (fun q => q ++ [e])) 1
      (fun slot => slot_sum_append slot c e)
      (padTo (m + 1) [] el) m (by rw [padTo_length]; omega),
    sum_map_padTo (fun slot => (slot.map List.length).sum) [] rfl]
  rfl

theorem buildGo_flatten (w : Nat) :
    ∀ (l : List XiaEvent) (a : Nat) (cur : List XiaEvent),
      (buildGo w a cur l).flatten = cur ++ l := by
  intro l
  induction l with
  | nil => intro a cur; simp [buildGo]
  | cons h rest ih =>
    intro a cur
    simp only [buildGo]
    by_cases hle : h.time - a ≤ w
    · rw [if_pos hle, ih]
      simp
    · rw [if_neg hle]
      simp [ih]

theorem buildEvents_flatten (w : Nat) (l : List XiaEvent) :
    (buildEvents w l).flatten = l := by
  match l with
  | [] => rfl
  | h :: rest =>
    rw [buildEvents, buildGo_flatten]
    rfl

theorem timeSortMerge_cons (q : List XiaEvent) (qs : List (List XiaEvent)) :
    timeSortMerge (q :: qs) = mergeLE timeLE q (timeSortMerge qs) := rfl

theorem timeSortMergeTagged_cons (q : List (XiaEvent × Nat))
    (qs : List (List (XiaEvent × Nat))) :
    timeSortMergeTagged (q :: qs) = mergeLE tagLE q (timeSortMergeTagged qs) := rfl

theorem timeSortMerge_length (qs : List (List XiaEvent)) :
    (timeSortMerge qs).length = qs.flatten.length := by
  induction qs with
  | nil => rfl
  | cons q qs ih =>
    rw [timeSortMerge_cons, mergeLE_eq_merge, List.length_merge, ih]
    simp

theorem totalQueued_eq_flatten (el : EventGrid) :
    totalQueued el = el.flatten.flatten.length := by
  induction el with
  | nil => rfl
  | cons slot el ih =>
    simp only [totalQueued, List.map_cons, List.sum_cons, List.flatten_cons,
      List.flatten_append, List.length_append, List.length_flatten]
    rw [totalQueued] at ih
    rw [ih]
    simp

theorem AddEvent_fst (u : Unpacker) (e : XiaEvent) :
    (u.AddEvent e).1 = decide (structValid e) := by
  rw [Unpacker.AddEvent]
  split
  · simp [*]
  · simp [*]

theorem AddEvent_counts (u : Unpacker) (e : XiaEvent) :
    (u.AddEvent e).2.channel_counts = u.channel_counts := by
  rw [Unpacker.AddEvent]
  split <;> rfl

theorem ingestHit_counts (u : Unpacker) (e : XiaEvent) (m c : Nat) :
    (u.ingestHit e).channel_counts m c
      = u.channel_counts m c
        + (if structValid e ∧ e.modNum = m ∧ e.chanNum = c then 1 else 0) := by
  rw [Unpacker.ingestHit]
  by_cases hv : structValid e
  · rw [if_pos hv, AddEvent_counts]
    show bump u.channel_counts e.modNum e.chanNum m c = _
    rw [bump]
    by_cases hmc : m = e.modNum ∧ c = e.chanNum
    · rw [if_pos hmc, if_pos ⟨hv, hmc.1.symm, hmc.2.symm⟩]
    · rw [if_neg hmc, if_neg (fun hh => hmc ⟨hh.2.1.symm, hh.2.2.symm⟩)]
      omega
  · rw [if_neg hv, AddEvent_counts,
      if_neg (fun hh => hv hh.1)]
    omega

theorem foldl_ingest_counts (hits : List XiaEvent) :
    ∀ (u : Unpacker) (m c : Nat),
      (hits.foldl Unpacker.ingestHit u).channel_counts m c
        = u.channel_counts m c + countHits hits m c := by
  induction hits with
  | nil => intro u m c; simp [countHits]
  | cons h hits ih =>
    intro u m c
    rw [List.foldl_cons, ih, ingestHit_counts]
    by_cases hc : structValid h ∧ h.modNum = m ∧ h.chanNum = c
    · simp [countHits, List.filter_cons, hc]
      omega
    · simp [countHits, List.filter_cons, hc]

theorem ingestHit_eventList (u : Unpacker) (e : XiaEvent) :
    (u.ingestHit e).eventList
      = if structValid e then appendHit u.eventList e.modNum e.chanNum e
        else u.eventList := by
  rw [Unpacker.ingestHit]
  by_cases hv : structValid e <;> simp [Unpacker.AddEvent, hv]

theorem foldl_ingest_total (hits : List XiaEvent) :
    ∀ (u : Unpacker),
      totalQueued (hits.foldl Unpacker.ingestHit u).eventList
        = totalQueued u.eventList
          + (hits.filter (fun h => decide (structValid h))).length := by
  induction hits with
  | nil => intro u; simp
  | cons h hits ih =>
    intro u
    rw [List.foldl_cons, ih]
    by_cases hv : structValid h
    · rw [ingestHit_eventList, if_pos hv, totalQueued_appendHit]
      simp [List.filter_cons, hv]
      omega
    · rw [ingestHit_eventList, if_neg hv]
      simp [List.filter_cons, hv]

theorem ingestHit_debug (u : Unpacker) (b : Bool) (e : XiaEvent) :
    Unpacker.ingestHit { u with debug_mode := b } e
      = { u.ingestHit e with debug_mode := b } := by
  rw [Unpacker.ingestHit, Unpacker.ingestHit]
  by_cases hv : structValid e <;> simp [Unpacker.AddEvent, hv]

theorem foldl_ingest_debug (hits : List XiaEvent) :
    ∀ (u : Unpacker) (b : Bool),
      hits.foldl Unpacker.ingestHit { u with debug_mode := b }
        = { hits.foldl Unpacker.ingestHit u with debug_mode := b } := by
  induction hits with
  | nil => intro u b; rfl
  | cons h hits ih =>
    intro u b
    rw [List.foldl_cons, ingestHit_debug, ih, List.foldl_cons]

theorem ReadSpill_reject (u : Unpacker) (data : List Nat) (v : Bool)
    (h : u.TOTALREAD < data.length) : u.ReadSpill data v = ⟨false, [], u⟩ := by
  rw [Unpacker.ReadSpill, if_pos h]

theorem ReadSpill_accept (u : Unpacker) (data : List Nat) (v : Bool)
    (h : ¬ u.TOTALREAD < data.length) :
    u.ReadSpill data v =
      ⟨true,
       buildEvents ((decodeRecords data).foldl Unpacker.ingestHit u).eventWidth
         ((decodeRecords data).foldl Unpacker.ingestHit u).TimeSort,
       { (decodeRecords data).foldl Unpacker.ingestHit u with
           eventList :=
             clearQueues ((decodeRecords data).foldl Unpacker.ingestHit u).eventList,
           rawEvent := [] }⟩ := by
  rw [Unpacker.ReadSpill, if_neg h]

theorem ReadSpill_counts (u : Unpacker) (data : List Nat) (v : Bool) (m c : Nat)
    (h : data.length ≤ u.TOTALREAD) :
    (u.ReadSpill data v).state.channel_counts m c
      = u.channel_counts m c + countHits (decodeRecords data) m c := by
  rw [ReadSpill_accept u data v (by omega)]
  exact foldl_ingest_counts _ u m c

theorem counts_le_applyOp (u : Unpacker) (op : UnpOp) (hnc : op.isClose = false)
    (m c : Nat) : u.channel_counts m c ≤ (applyOp u op).channel_counts m c := by
  cases op with
  | readSpill d v =>
    by_cases h : u.TOTALREAD < d.length
    · rw [applyOp, ReadSpill_reject u d v h]
    · rw [applyOp, ReadSpill_counts u d v m c (by omega)]
      omega
  | setEventWidth w => exact Nat.le_refl _
  | setDebugMode b => exact Nat.le_refl _
  | close f => simp [UnpOp.isClose] at hnc

theorem counts_le_foldl_ops (ops : List UnpOp) :
    ∀ (u : Unpacker), (∀ op ∈ ops, op.isClose = false) → ∀ (m c : Nat),
      u.channel_counts m c ≤ (ops.foldl applyOp u).channel_counts m c := by
  induction ops with
  | nil => intro u h m c; exact Nat.le_refl _
  | cons op ops ih =>
    intro u h m c
    rw [List.foldl_cons]
    exact Nat.le_trans
      (counts_le_applyOp u op (h op (List.mem_cons_self op ops)) m c)
      (ih (applyOp u op) (fun o ho => h o (List.mem_cons_of_mem op ho)) m c)

/-- C4: for every ReadSpill call whose word count exceeds the configured
maximum word budget (TOTALREAD), ReadSpill returns false, finalizes no raw
event, and leaves the state, in particular the hit queues, completely
unchanged: the spill is rejected atomically with no partial enqueueing. -/
theorem claim_C4_oversized_spill_atomic (u : Unpacker) (data : List Nat)
    (v : Bool) (h : u.TOTALREAD < data.length) :
    (u.ReadSpill data v).ok = false ∧ (u.ReadSpill data v).events = [] ∧
      (u.ReadSpill data v).state = u ∧
      (u.ReadSpill data v).state.eventList = u.eventList := by
  rw [ReadSpill_reject u data v h]
  exact ⟨rfl, rfl, rfl, rfl⟩

theorem claim_C4_witness :
    ({ initUnpacker with TOTALREAD := 3 } : Unpacker).TOTALREAD
        < ([1, 2, 3, 4] : List Nat).length ∧
      (({ initUnpacker with TOTALREAD := 3 } : Unpacker).ReadSpill
            [1, 2, 3, 4] true).ok = false ∧
      (({ initUnpacker with TOTALREAD := 3 } : Unpacker).ReadSpill
            [1, 2, 3, 4] true).events = [] ∧
      (({ initUnpacker with TOTALREAD := 3 } : Unpacker).ReadSpill
            [1, 2, 3, 4] true).state = { initUnpacker with TOTALREAD := 3 } ∧
      (({ initUnpacker with TOTALREAD := 3 } : Unpacker).ReadSpill
            [1, 2, 3, 4] true).state.eventList
        = ({ initUnpacker with TOTALREAD := 3 } : Unpacker).eventList :=
  ⟨by decide, claim_C4_oversized_spill_atomic _ _ _ (by decide)⟩

/-- C5: AddEvent appends the hit to the queue for its (module, channel) and
reports true when both indices are within [0, MAX_PIXIE_MOD] and
[0, MAX_PIXIE_CHAN]; otherwise it reports false and drops the hit, leaving
the whole state, in particular the Channel Statistics slot, unchanged, and
raising no exception (it is a total function). -/
theorem claim_C5_addEvent_bounds (u : Unpacker) (e : XiaEvent) :
    (structValid e →
      (u.AddEvent e).1 = true ∧
      queueAt (u.AddEvent e).2.eventList e.modNum e.chanNum
        = queueAt u.eventList e.modNum e.chanNum ++ [e]) ∧
    (¬ structValid e →
      (u.AddEvent e).1 = false ∧ (u.AddEvent e).2 = u ∧
      (u.AddEvent e).2.channel_counts e.modNum e.chanNum
        = u.channel_counts e.modNum e.chanNum) := by
  constructor
  · intro hv
    rw [Unpacker.AddEvent, if_pos hv]
    exact ⟨rfl, queueAt_appendHit u.eventList e.modNum e.chanNum e⟩
  · intro hv
    rw [Unpacker.AddEvent, if_neg hv]
    exact ⟨rfl, rfl, rfl⟩

theorem claim_C5_witness :
    structValid ⟨3, 4, 10, 7, [], true⟩ ∧
    ¬ structValid ⟨MAX_PIXIE_MOD + 1, 0, 10, 7, [], true⟩ ∧
    ((initUnpacker.AddEvent ⟨3, 4, 10, 7, [], true⟩).1 = true ∧
      queueAt (initUnpacker.AddEvent ⟨3, 4, 10, 7, [], true⟩).2.eventList 3 4
        = queueAt initUnpacker.eventList 3 4 ++ [⟨3, 4, 10, 7, [], true⟩]) ∧
    ((initUnpacker.AddEvent ⟨MAX_PIXIE_MOD + 1, 0, 10, 7, [], true⟩).1 = false ∧
      (initUnpacker.AddEvent ⟨MAX_PIXIE_MOD + 1, 0, 10, 7, [], true⟩).2
        = initUnpacker ∧
      (initUnpacker.AddEvent
          ⟨MAX_PIXIE_MOD + 1, 0, 10, 7, [], true⟩).2.channel_counts
          (MAX_PIXIE_MOD + 1) 0
        = initUnpacker.channel_counts (MAX_PIXIE_MOD + 1) 0) :=
  ⟨by decide, by decide,
    (claim_C5_addEvent_bounds initUnpacker ⟨3, 4, 10, 7, [], true⟩).1 (by decide),
    (claim_C5_addEvent_bounds initUnpacker
        ⟨MAX_PIXIE_MOD + 1, 0, 10, 7, [], true⟩).2 (by decide)⟩

/-- C6: a record whose declared trace length exceeds the remaining buffer is
decoded as a hit marked invalid, the decoder skips the recoverable header
and continues with the rest of the buffer, so every later structurally valid
record is still decoded. -/
theorem claim_C6_trace_overrun (m c t en tl : Nat) (rest : List Nat)
    (hover : rest.length < tl) :
    decodeRecords (m :: c :: t :: en :: tl :: rest)
      = ⟨m, c, t, en, [], false⟩ :: decodeRecords rest := by
  rw [decodeRecords_cons, if_neg (by omega)]

set_option maxRecDepth 8000 in
theorem claim_C6_witness :
    (([1, 2, 10, 3, 1, 99] ++ List.replicate 189 0 : List Nat).length < 50000) ∧
    decodeRecords
        (7 :: 3 :: 1000 :: 50 :: 50000
          :: ([1, 2, 10, 3, 1, 99] ++ List.replicate 189 0))
      = ⟨7, 3, 1000, 50, [], false⟩
          :: decodeRecords ([1, 2, 10, 3, 1, 99] ++ List.replicate 189 0) ∧
    (decodeRecords ([1, 2, 10, 3, 1, 99] ++ List.replicate 189 0)).take 1
      = [⟨1, 2, 10, 3, [99], true⟩] :=
  ⟨by decide, claim_C6_trace_overrun 7 3 1000 50 50000 _ (by decide), by decide⟩

/-- C7: Close is idempotent: from every state, a second Close yields exactly
the state of the first (empty event list, empty raw event, cleared
statistics), and all Channel Statistics counters are zero immediately after
any Close call. -/
theorem claim_C7_close_idempotent :
    (∀ (u : Unpacker) (f g : Bool), (u.Close f).Close g = u.Close f) ∧
    (∀ (u : Unpacker) (f : Bool) (m c : Nat),
      (u.Close f).channel_counts m c = 0) ∧
    (∀ (u : Unpacker) (f : Bool),
      (u.Close f).eventList = [] ∧ (u.Close f).rawEvent = []) :=
  ⟨fun u f g => rfl, fun u f m c => rfl, fun u f => ⟨rfl, rfl⟩⟩

/-- C9: toggling debug mode does not change ReadSpill semantics: from any
state, the run with the flag set and the run without it return the same
status, the same finalized raw events in the same order, the same Channel
Statistics and the same hit queues. -/
theorem claim_C9_debug_mode_irrelevant (u : Unpacker) (b : Bool)
    (data : List Nat) (v : Bool) :
    ((u.SetDebugMode b).2.ReadSpill data v).ok = (u.ReadSpill data v).ok ∧
    ((u.SetDebugMode b).2.ReadSpill data v).events
      = (u.ReadSpill data v).events ∧
    ((u.SetDebugMode b).2.ReadSpill data v).state.channel_counts
      = (u.ReadSpill data v).state.channel_counts ∧
    ((u.SetDebugMode b).2.ReadSpill data v).state.eventList
      = (u.ReadSpill data v).state.eventList := by
  have hs : (u.SetDebugMode b).2 = { u with debug_mode := b } := rfl
  by_cases h : u.TOTALREAD < data.length
  · rw [hs, ReadSpill_reject { u with debug_mode := b } data v h,
      ReadSpill_reject u data v h]
    exact ⟨rfl, rfl, rfl, rfl⟩
  · rw [hs, ReadSpill_accept { u with debug_mode := b } data v h,
      ReadSpill_accept u data v h, foldl_ingest_debug]
    exact ⟨rfl, rfl, rfl, rfl⟩

/-- C10: GetMaxModule returns the current size of the event list (the number
of module slots created so far): it is 0 on a freshly constructed Unpacker,
differs from the compile-time maximum MAX_PIXIE_MOD, and grows as spills
from higher-numbered modules are processed. -/
theorem claim_C10_getMaxModule :
    (∀ u : Unpacker, u.GetMaxModule = u.eventList.length) ∧
    initUnpacker.GetMaxModule = 0 ∧
    initUnpacker.GetMaxModule ≠ MAX_PIXIE_MOD ∧
    (initUnpacker.ReadSpill [5, 0, 100, 7, 0] true).state.GetMaxModule = 6 :=
  ⟨fun u => rfl, rfl, by decide, by decide⟩

theorem buildGo_invariant (w : Nat) :
    ∀ (l : List XiaEvent) (a : Nat) (c0 : XiaEvent) (tl : List XiaEvent),
      c0.time = a →
      (∀ x ∈ c0 :: tl, a ≤ x.time ∧ x.time - a ≤ w) →
      (∀ x ∈ c0 :: tl, ∀ y ∈ l, x.time ≤ y.time) →
      List.Pairwise (fun p q => p.time ≤ q.time) l →
      (∀ E ∈ buildGo w a (c0 :: tl) l, E ≠ [] ∧
        ∀ x ∈ E, anchorOf E ≤ x.time ∧ x.time - anchorOf E ≤ w) ∧
      List.Chain' (fun E1 E2 => anchorOf E1 + w < anchorOf E2)
        (buildGo w a (c0 :: tl) l) ∧
      ∃ tl2 evs, buildGo w a (c0 :: tl) l = (c0 :: tl2) :: evs := by
  intro l
  induction l with
  | nil =>
    intro a c0 tl hc0 hcur hcl hsort
    refine ⟨?_, ?_, tl, [], rfl⟩
    · intro E hE
      rw [buildGo] at hE
      rcases List.mem_singleton.mp hE with rfl
      refine ⟨List.cons_ne_nil c0 tl, ?_⟩
      intro x hx
      have hx' := hcur x hx
      simp only [anchorOf]
      omega
    · rw [buildGo]
      exact List.chain'_singleton _
  | cons h rest ih =>
    intro a c0 tl hc0 hcur hcl hsort
    rw [buildGo]
    by_cases hle : h.time - a ≤ w
    · rw [if_pos hle]
      have hcons : (c0 :: tl) ++ [h] = c0 :: (tl ++ [h]) := rfl
      rw [hcons]
      refine ih a c0 (tl ++ [h]) hc0 ?_ ?_ (List.Pairwise.of_cons hsort)
      · intro x hx
        rcases List.mem_cons.mp hx with rfl | hx'
        · exact hcur x (List.mem_cons_self x tl)
        · rcases List.mem_append.mp hx' with hx'' | hx'''
          · exact hcur x (List.mem_cons_of_mem c0 hx'')
          · rcases List.mem_singleton.mp hx''' with rfl
            refine ⟨?_, hle⟩
            have := hcl c0 (List.mem_cons_self c0 tl) x
              (List.mem_cons_self x rest)
            omega
      · intro x hx y hy
        rcases List.mem_cons.mp hx with rfl | hx'
        · exact hcl x (List.mem_cons_self x tl) y (List.mem_cons_of_mem h hy)
        · rcases List.mem_append.mp hx' with hx'' | hx'''
          · exact hcl x (List.mem_cons_of_mem c0 hx'')
              y (List.mem_cons_of_mem h hy)
          · rcases List.mem_singleton.mp hx''' with rfl
            exact List.rel_of_pairwise_cons hsort hy
    · rw [if_neg hle]
      obtain ⟨P1, CH, tl2, evs, heq⟩ :=
        ih h.time h [] rfl
          (by
            intro x hx
            rcases List.mem_singleton.mp hx with rfl
            exact ⟨Nat.le_refl _, by omega⟩)
          (by
            intro x hx y hy
            rcases List.mem_singleton.mp hx with rfl
            exact List.rel_of_pairwise_cons hsort hy)
          (List.Pairwise.of_cons hsort)
      rw [heq]
      rw [heq] at P1 CH
      refine ⟨?_, ?_, tl, (h :: tl2) :: evs, rfl⟩
      · intro E hE
        rcases List.mem_cons.mp hE with rfl | hE'
        · refine ⟨List.cons_ne_nil _ _, ?_⟩
          intro x hx
          have hx' := hcur x hx
          simp only [anchorOf]
          omega
        · exact P1 E hE'
      · rw [List.chain'_cons]
        refine ⟨?_, CH⟩
        simp only [anchorOf]
        omega

/-- C1: under a timestamp-sorted input (as produced by TimeSort), every raw
event finalized by the builder is non-empty, each of its hits lies within
eventWidth of the event's anchor (the first hit's timestamp), the spread
max − min of its timestamps is at most eventWidth, and the first hit of
every following event — the candidate whose admission finalized the previous
event — has timestamp strictly greater than the previous anchor plus
eventWidth. -/
theorem claim_C1_window_invariant (w : Nat) (l : List XiaEvent)
    (hsort : List.Pairwise (fun p q => p.time ≤ q.time) l) :
    (∀ E ∈ buildEvents w l, E ≠ [] ∧
      (∀ x ∈ E, anchorOf E ≤ x.time ∧ x.time - anchorOf E ≤ w) ∧
      (∀ x ∈ E, ∀ y ∈ E, x.time - y.time ≤ w)) ∧
    List.Chain' (fun E1 E2 => anchorOf E1 + w < anchorOf E2)
      (buildEvents w l) := by
  match l with
  | [] =>
    refine ⟨?_, ?_⟩
    · intro E hE
      rw [buildEvents] at hE
      exact absurd hE (List.not_mem_nil E)
    · rw [buildEvents]
      exact List.chain'_nil
  | h :: rest =>
    obtain ⟨P1, CH, _⟩ :=
      buildGo_invariant w rest h.time h [] rfl
        (by
          intro x hx
          rcases List.mem_singleton.mp hx with rfl
          exact ⟨Nat.le_refl _, by omega⟩)
        (by
          intro x hx y hy
          rcases List.mem_singleton.mp hx with rfl
          exact List.rel_of_pairwise_cons hsort hy)
        (List.Pairwise.of_cons hsort)
    rw [buildEvents]
    refine ⟨?_, CH⟩
    intro E hE
    obtain ⟨hne, hwin⟩ := P1 E hE
    refine ⟨hne, hwin, ?_⟩
    intro x hx y hy
    have hx' := hwin x hx
    have hy' := hwin y hy
    omega

theorem claim_C1_witness :
    List.Pairwise (fun p q => p.time ≤ q.time)
      [(⟨0, 0, 100, 0, [], true⟩ : XiaEvent), ⟨0, 1, 105, 0, [], true⟩,
        ⟨1, 0, 140, 0, [], true⟩] ∧
    buildEvents 10
        [(⟨0, 0, 100, 0, [], true⟩ : XiaEvent), ⟨0, 1, 105, 0, [], true⟩,
          ⟨1, 0, 140, 0, [], true⟩]
      = [[⟨0, 0, 100, 0, [], true⟩, ⟨0, 1, 105, 0, [], true⟩],
          [⟨1, 0, 140, 0, [], true⟩]] ∧
    ((∀ E ∈ buildEvents 10
          [(⟨0, 0, 100, 0, [], true⟩ : XiaEvent), ⟨0, 1, 105, 0, [], true⟩,
            ⟨1, 0, 140, 0, [], true⟩], E ≠ [] ∧
        (∀ x ∈ E, anchorOf E ≤ x.time ∧ x.time - anchorOf E ≤ 10) ∧
        (∀ x ∈ E, ∀ y ∈ E, x.time - y.time ≤ 10)) ∧
      List.Chain' (fun E1 E2 => anchorOf E1 + 10 < anchorOf E2)
        (buildEvents 10
          [(⟨0, 0, 100, 0, [], true⟩ : XiaEvent), ⟨0, 1, 105, 0, [], true⟩,
            ⟨1, 0, 140, 0, [], true⟩])) :=
  ⟨by decide, by decide, claim_C1_window_invariant 10 _ (by decide)⟩

/-- C3: for every spill that passes the size guard, the total number of hits
across all raw events finalized by the builder equals the number of hits
accepted by AddEvent for that spill, assuming the queues start empty as they
do between spills: the builder neither drops nor duplicates a hit. -/
theorem claim_C3_conservation (u : Unpacker) (data : List Nat) (v : Bool)
    (hempty : totalQueued u.eventList = 0)
    (hsize : data.length ≤ u.TOTALREAD) :
    ((u.ReadSpill data v).events.flatten).length
      = ((decodeRecords data).filter (fun h => (u.AddEvent h).1)).length := by
  rw [ReadSpill_accept u data v (by omega)]
  show (buildEvents _ (Unpacker.TimeSort _)).flatten.length = _
  rw [buildEvents_flatten, Unpacker.TimeSort, timeSortMerge_length,
    ← totalQueued_eq_flatten, foldl_ingest_total, hempty]
  have hfc : (decodeRecords data).filter (fun h => (u.AddEvent h).1)
      = (decodeRecords data).filter (fun h => decide (structValid h)) :=
    List.filter_congr (fun x _ => AddEvent_fst u x)
  rw [hfc]
  omega

theorem claim_C3_witness :
    totalQueued initUnpacker.eventList = 0 ∧
    ([0, 0, 5, 7, 0, 13, 0, 9, 7, 0] : List Nat).length
      ≤ initUnpacker.TOTALREAD ∧
    ((initUnpacker.ReadSpill [0, 0, 5, 7, 0, 13, 0, 9, 7, 0]
        true).events.flatten).length
      = ((decodeRecords [0, 0, 5, 7, 0, 13, 0, 9, 7, 0]).filter
          (fun h => (initUnpacker.AddEvent h).1)).length :=
  ⟨by decide, by decide,
    claim_C3_conservation initUnpacker [0, 0, 5, 7, 0, 13, 0, 9, 7, 0] true
      (by decide) (by decide)⟩

/-- C8: every Channel Statistics counter grows by exactly the number of
structurally valid hits decoded for its (module, channel) slot on each
accepted spill, and over any sequence of interface calls that contains no
Close the counters are monotonically non-decreasing: nothing but Close
resets or decrements them. -/
theorem claim_C8_channel_statistics :
    (∀ (u : Unpacker) (data : List Nat) (v : Bool) (m c : Nat),
        data.length ≤ u.TOTALREAD →
        (u.ReadSpill data v).state.channel_counts m c
          = u.channel_counts m c + countHits (decodeRecords data) m c) ∧
    (∀ (u : Unpacker) (ops : List UnpOp) (m c : Nat),
        (∀ op ∈ ops, op.isClose = false) →
        u.channel_counts m c ≤ (ops.foldl applyOp u).channel_counts m c) :=
  ⟨fun u data v m c h => ReadSpill_counts u data v m c h,
   fun u ops m c h => counts_le_foldl_ops ops u h m c⟩

theorem claim_C8_witness :
    (([0, 0, 5, 7, 0] : List Nat).length ≤ initUnpacker.TOTALREAD) ∧
    ((initUnpacker.ReadSpill [0, 0, 5, 7, 0] true).state.channel_counts 0 0
      = initUnpacker.channel_counts 0 0
        + countHits (decodeRecords [0, 0, 5, 7, 0]) 0 0) ∧
    (∀ op ∈ ([UnpOp.readSpill [0, 0, 5, 7, 0] true, UnpOp.setEventWidth 50]
        : List UnpOp), op.isClose = false) ∧
    initUnpacker.channel_counts 0 0
      ≤ (([UnpOp.readSpill [0, 0, 5, 7, 0] true, UnpOp.setEventWidth 50]
          : List UnpOp).foldl applyOp initUnpacker).channel_counts 0 0 :=
  ⟨by decide,
   claim_C8_channel_statistics.1 initUnpacker [0, 0, 5, 7, 0] true 0 0
     (by decide),
   by decide,
   claim_C8_channel_statistics.2 initUnpacker
     [UnpOp.readSpill [0, 0, 5, 7, 0] true, UnpOp.setEventWidth 50] 0 0
     (by decide)⟩

theorem sorted_lex_merge :
    ∀ (xs ys : List (XiaEvent × Nat)),
      List.Pairwise lexRel xs → List.Pairwise lexRel ys →
      (∀ x ∈ xs, ∀ y ∈ ys, x.2 < y.2) →
      List.Pairwise lexRel (mergeLE tagLE xs ys) := by
  intro xs
  induction xs with
  | nil =>
    intro ys _ hys _
    rw [mergeLE_eq_merge, List.nil_merge]
    exact hys
  | cons x xs ih =>
    intro ys
    induction ys with
    | nil =>
      intro hxs _ _
      rw [mergeLE_eq_merge, List.merge_right]
      exact hxs
    | cons y ys ihy =>
      intro hxs hys htags
      rw [mergeLE_eq_merge, List.cons_merge_cons]
      by_cases hc : tagLE x y = true
      · rw [if_pos hc]
        have hc' : x.1.time ≤ y.1.time := of_decide_eq_true hc
        apply List.Pairwise.cons
        · intro z hz
          rcases List.mem_merge.mp hz with hz' | hz'
          · exact List.rel_of_pairwise_cons hxs hz'
          · have htag : x.2 < z.2 := htags x (List.mem_cons_self x xs) z hz'
            have hyz : y.1.time ≤ z.1.time := by
              rcases List.mem_cons.mp hz' with rfl | hz''
              · exact Nat.le_refl _
              · have hlex := List.rel_of_pairwise_cons hys hz''
                unfold lexRel at hlex
                omega
            unfold lexRel
            omega
        · have hrec := ih (y :: ys) (List.Pairwise.of_cons hxs) hys
            (fun a ha b hb => htags a (List.mem_cons_of_mem x ha) b hb)
          rw [mergeLE_eq_merge] at hrec
          exact hrec
      · rw [if_neg hc]
        have hc' : y.1.time < x.1.time := by
          have hnn : ¬ (x.1.time ≤ y.1.time) := fun hle => hc (decide_eq_true hle)
          omega
        apply List.Pairwise.cons
        · intro z hz
          rcases List.mem_merge.mp hz with hz' | hz'
          · have hxz : x.1.time ≤ z.1.time := by
              rcases List.mem_cons.mp hz' with rfl | hz''
              · exact Nat.le_refl _
              · have hlex := List.rel_of_pairwise_cons hxs hz''
                unfold lexRel at hlex
                omega
            unfold lexRel
            omega
          · exact List.rel_of_pairwise_cons hys hz'
        · have hrec := ihy hxs (List.Pairwise.of_cons hys)
            (fun a ha b hb => htags a ha b (List.mem_cons_of_mem y hb))
          rw [mergeLE_eq_merge] at hrec
          exact hrec

theorem tags_ge_timeSortMergeTagged (qs : List (List XiaEvent)) :
    ∀ (i : Nat), ∀ z ∈ timeSortMergeTagged (tagFrom i qs), i ≤ z.2 := by
  induction qs with
  | nil =>
    intro i z hz
    rw [tagFrom] at hz
    exact absurd hz (List.not_mem_nil z)
  | cons q qs ih =>
    intro i z hz
    rw [tagFrom, timeSortMergeTagged_cons, mergeLE_eq_merge] at hz
    rcases List.mem_merge.mp hz with hz' | hz'
    · obtain ⟨h, hh, rfl⟩ := List.mem_map.mp hz'
      exact Nat.le_refl i
    · exact Nat.le_trans (Nat.le_succ i) (ih (i + 1) z hz')

theorem timeSortMergeTagged_sorted (qs : List (List XiaEvent)) :
    ∀ (i : Nat),
      (∀ q ∈ qs, List.Pairwise (fun a b => a.time ≤ b.time) q) →
      List.Pairwise lexRel (timeSortMergeTagged (tagFrom i qs)) := by
  induction qs with
  | nil => intro i _; exact List.Pairwise.nil
  | cons q qs ih =>
    intro i hq
    rw [tagFrom, timeSortMergeTagged_cons]
    apply sorted_lex_merge
    · refine List.Pairwise.map _ ?_ (hq q (List.mem_cons_self q qs))
      intro a b hab
      unfold lexRel
      simp only []
      omega
    · exact ih (i + 1) (fun q' hq' => hq q' (List.mem_cons_of_mem q hq'))
    · intro x hx y hy
      obtain ⟨h, hh, rfl⟩ := List.mem_map.mp hx
      have := tags_ge_timeSortMergeTagged qs (i + 1) y hy
      omega

theorem timeSortMergeTagged_fst (qs : List (List XiaEvent)) :
    ∀ (i : Nat),
      (timeSortMergeTagged (tagFrom i qs)).map Prod.fst = timeSortMerge qs := by
  induction qs with
  | nil => intro i; rfl
  | cons q qs ih =>
    intro i
    rw [tagFrom, timeSortMergeTagged_cons, timeSortMerge_cons,
      mergeLE_eq_merge, mergeLE_eq_merge]
    have hmm : ((q.map (fun h => (h, i))).merge
          (timeSortMergeTagged (tagFrom (i + 1) qs)) tagLE).map Prod.fst
        = ((q.map (fun h => (h, i))).map Prod.fst).merge
            ((timeSortMergeTagged (tagFrom (i + 1) qs)).map Prod.fst) timeLE :=
      List.map_merge (fun a ha b hb => rfl)
    rw [hmm, ih, List.map_map]
    have hcomp : (Prod.fst ∘ fun h : XiaEvent => (h, i)) = id := rfl
    rw [hcomp, List.map_id]

theorem lexRel_time_le (a b : XiaEvent × Nat) (h : lexRel a b) :
    a.1.time ≤ b.1.time := by
  unfold lexRel at h
  omega

/-- C2: assuming each queue is internally timestamp-sorted (as decode order
is within one channel), the merged sequence produced by TimeSort is
non-decreasing in timestamp, and the merge is stable with the deterministic
tie-break: tagging every hit with its queue position in iteration order
(module ascending, then channel ascending), the tagged merge projects onto
the TimeSort output and is sorted lexicographically by (timestamp, queue
index), so on equal timestamps the hit from the earlier queue precedes. -/
theorem claim_C2_timesort_sorted_stable (u : Unpacker)
    (hq : ∀ q ∈ u.eventList.flatten,
        List.Pairwise (fun a b => a.time ≤ b.time) q) :
    List.Pairwise (fun a b => a.time ≤ b.time) u.TimeSort ∧
    (timeSortMergeTagged (tagFrom 0 u.eventList.flatten)).map Prod.fst
      = u.TimeSort ∧
    List.Pairwise lexRel
      (timeSortMergeTagged (tagFrom 0 u.eventList.flatten)) := by
  have hsorted := timeSortMergeTagged_sorted u.eventList.flatten 0 hq
  have hfst := timeSortMergeTagged_fst u.eventList.flatten 0
  refine ⟨?_, ?_, hsorted⟩
  · rw [Unpacker.TimeSort, ← hfst]
    exact List.Pairwise.map _ (fun a b hab => lexRel_time_le a b hab) hsorted
  · rw [Unpacker.TimeSort, hfst]

theorem claim_C2_witness :
    (∀ q ∈ ({ initUnpacker with eventList :=
          [[[⟨0, 0, 5, 0, [], true⟩, ⟨0, 0, 9, 0, [], true⟩],
            [⟨0, 1, 5, 0, [], true⟩, ⟨0, 1, 7, 0, [], true⟩]]] }
          : Unpacker).eventList.flatten,
        List.Pairwise (fun a b => a.time ≤ b.time) q) ∧
    (List.Pairwise (fun a b => a.time ≤ b.time)
        ({ initUnpacker with eventList :=
            [[[⟨0, 0, 5, 0, [], true⟩, ⟨0, 0, 9, 0, [], true⟩],
              [⟨0, 1, 5, 0, [], true⟩, ⟨0, 1, 7, 0, [], true⟩]]] }
            : Unpacker).TimeSort ∧
      (timeSortMergeTagged (tagFrom 0
          ({ initUnpacker with eventList :=
              [[[⟨0, 0, 5, 0, [], true⟩, ⟨0, 0, 9, 0, [], true⟩],
                [⟨0, 1, 5, 0, [], true⟩, ⟨0, 1, 7, 0, [], true⟩]]] }
              : Unpacker).eventList.flatten)).map Prod.fst
        = ({ initUnpacker with eventList :=
            [[[⟨0, 0, 5, 0, [], true⟩, ⟨0, 0, 9, 0, [], true⟩],
              [⟨0, 1, 5, 0, [], true⟩, ⟨0, 1, 7, 0, [], true⟩]]] }
            : Unpacker).TimeSort ∧
      List.Pairwise lexRel
        (timeSortMergeTagged (tagFrom 0
          ({ initUnpacker with eventList :=
              [[[⟨0, 0, 5, 0, [], true⟩, ⟨0, 0, 9, 0, [], true⟩],
                [⟨0, 1, 5, 0, [], true⟩, ⟨0, 1, 7, 0, [], true⟩]]] }
              : Unpacker).eventList.flatten))) :=
  ⟨by decide, claim_C2_timesort_sorted_stable _ (by decide)⟩
